import Mathlib

/-!
# Verification of the translation job orchestration core

Shallow embedding of the orchestration core of the Sendgrid-Translation
repository: the job store (`dbService` over `translation_tasks` and
`template_translations`), the per-language worker's completion check, the
coordinator's finalize step, and the retranslation HTTP route.

Timestamps are modelled as natural numbers, row identifiers as natural
numbers, and the database as lists of rows.  SQL updates (`UPDATE ... WHERE`)
become maps over the row lists; fresh ids and the current time are passed in
explicitly since the source obtains them from the database / clock.
-/

namespace SendgridTranslation

/-- The `translation_status` enum of `template_translations`. -/
inductive TrStatus
  | pending
  | processing
  | completed
  | failed
deriving DecidableEq, Repr

/-- The `task_status` enum of `translation_tasks`. -/
inductive TaskStatus
  | pending
  | processing
  | completed
  | failed
deriving DecidableEq, Repr

/-- A row of `template_translations` (schema plus the
`0002_add_translation_versioning` migration columns and the retranslation
columns used by the db-service). -/
structure Translation where
  id : Nat
  taskId : Nat
  templateId : String
  templateVersionId : String
  languageCode : String
  originalHtml : String
  translatedHtml : Option String
  originalSubject : Option String
  translatedSubject : Option String
  status : TrStatus
  errorMessage : Option String
  retranslateReason : Option String
  retranslateAttempts : Nat
  version : Nat
  verifiedAt : Option Nat
  deletedAt : Option Nat
  createdAt : Nat
  updatedAt : Nat
deriving DecidableEq, Repr

/-- A row of `translation_tasks`. -/
structure Task where
  id : Nat
  templateId : String
  templateName : String
  templateVersionId : String
  sourceLanguage : String
  targetLanguages : List String
  status : TaskStatus
  totalLanguages : Nat
  completedLanguages : Nat
  failedLanguages : Nat
  errorMessage : Option String
  createdAt : Nat
  updatedAt : Nat
deriving DecidableEq, Repr

/-- The relational state the orchestration core operates on. -/
structure DB where
  tasks : List Task
  translations : List Translation
deriving DecidableEq, Repr

/-- `dbService.templateTranslations.findById`: `SELECT ... WHERE id = ?`,
first row. -/
def findTranslationById (db : DB) (id : Nat) : Option Translation :=
  db.translations.find? (fun r => r.id == id)

/-- `dbService.translationTasks.findById`: `SELECT ... WHERE id = ?`,
first row. -/
def findTaskById (db : DB) (id : Nat) : Option Task :=
  db.tasks.find? (fun t => t.id == id)

/-- The non-deleted translation rows of a task
(`WHERE task_id = ? AND deleted_at IS NULL`). -/
def nonDeletedOfTask (db : DB) (taskId : Nat) : List Translation :=
  db.translations.filter (fun r => r.taskId == taskId && r.deletedAt.isNone)

/-- `dbService.templateTranslations.getNextVersion`:
`COALESCE(MAX(version), 0) + 1` over all rows matching
(templateId, templateVersionId, languageCode) — soft-deleted rows are not
filtered out. -/
def getNextVersion (db : DB) (templateId templateVersionId languageCode : String) : Nat :=
  (db.translations.filter (fun r =>
      r.templateId == templateId &&
      r.templateVersionId == templateVersionId &&
      r.languageCode == languageCode)).foldl (fun m r => max m r.version) 0 + 1

/-- The `ORDER BY language_code ASC, created_at DESC, updated_at DESC`
ordering used by `syncCounts`. -/
def syncOrder (a b : Translation) : Prop :=
  a.languageCode < b.languageCode ∨
    (a.languageCode = b.languageCode ∧
      (b.createdAt < a.createdAt ∨
        (b.createdAt = a.createdAt ∧ b.updatedAt ≤ a.updatedAt)))

instance : DecidableRel syncOrder := fun a b => by
  unfold syncOrder
  infer_instance

instance : IsTotal Translation syncOrder := by
  constructor
  intro a b
  rcases lt_trichotomy a.languageCode b.languageCode with h | h | h
  · exact Or.inl (Or.inl h)
  · rcases lt_trichotomy a.createdAt b.createdAt with h2 | h2 | h2
    · exact Or.inr (Or.inr ⟨h.symm, Or.inl h2⟩)
    · rcases Nat.le_total a.updatedAt b.updatedAt with h3 | h3
      · exact Or.inr (Or.inr ⟨h.symm, Or.inr ⟨h2, h3⟩⟩)
      · exact Or.inl (Or.inr ⟨h, Or.inr ⟨h2.symm, h3⟩⟩)
    · exact Or.inl (Or.inr ⟨h, Or.inl h2⟩)
  · exact Or.inr (Or.inl h)

instance : IsTrans Translation syncOrder := by
  constructor
  intro a b c hab hbc
  rcases hab with hab | ⟨eab, hab⟩
  · rcases hbc with hbc | ⟨ebc, hbc⟩
    · exact Or.inl (lt_trans hab hbc)
    · exact Or.inl (ebc ▸ hab)
  · rcases hbc with hbc | ⟨ebc, hbc⟩
    · exact Or.inl (eab ▸ hbc)
    · refine Or.inr ⟨eab.trans ebc, ?_⟩
      rcases hab with hab | ⟨e1, hab⟩
      · rcases hbc with hbc | ⟨e2, hbc⟩
        · exact Or.inl (lt_trans hbc hab)
        · exact Or.inl (e2 ▸ hab)
      · rcases hbc with hbc | ⟨e2, hbc⟩
        · exact Or.inl (e1 ▸ hbc)
        · exact Or.inr ⟨e2.trans e1, le_trans hbc hab⟩

/-- The dedup-and-count loop of `dbService.translationTasks.syncCounts`:
walk the (sorted) rows, skip languages already seen, count the first row of
each language as completed / failed according to its status. -/
def syncLoop : List Translation → List String → Nat × Nat → Nat × Nat
  | [], _, acc => acc
  | r :: rs, seen, (c, f) =>
    if r.languageCode ∈ seen then
      syncLoop rs seen (c, f)
    else
      syncLoop rs (r.languageCode :: seen)
        (if r.status = TrStatus.completed then (c + 1, f)
         else if r.status = TrStatus.failed then (c, f + 1)
         else (c, f))

/-- The first-row-per-language selection performed by the `syncCounts` loop,
made explicit for specification purposes. -/
def dedupeByLanguage : List Translation → List String → List Translation
  | [], _ => []
  | r :: rs, seen =>
    if r.languageCode ∈ seen then
      dedupeByLanguage rs seen
    else
      r :: dedupeByLanguage rs (r.languageCode :: seen)

/-- `dbService.translationTasks.syncCounts`: scan the task's non-deleted
translation rows ordered by (language, created_at DESC, updated_at DESC),
keep the first row of each language, count completed and failed among the
kept rows, and write the two counters back to the task row. -/
def syncCounts (db : DB) (taskId : Nat) (now : Nat) : DB :=
  let rows := List.insertionSort syncOrder (nonDeletedOfTask db taskId)
  let counts := syncLoop rows [] (0, 0)
  { db with
    tasks := db.tasks.map (fun t =>
      if t.id = taskId then
        { t with
          completedLanguages := counts.1
          failedLanguages := counts.2
          updatedAt := now }
      else t) }

/-- The `ORDER BY created_at DESC` ordering used by
`findLatestByTaskAndLanguage`. -/
def latestOrder (a b : Translation) : Prop :=
  b.createdAt ≤ a.createdAt

instance : DecidableRel latestOrder := fun a b => by
  unfold latestOrder
  infer_instance

instance : IsTotal Translation latestOrder := by
  constructor
  intro a b
  rcases Nat.le_total a.createdAt b.createdAt with h | h
  · exact Or.inr h
  · exact Or.inl h

instance : IsTrans Translation latestOrder := by
  constructor
  intro a b c hab hbc
  exact le_trans hbc hab

/-- The rows eligible for `findLatestByTaskAndLanguage`:
`WHERE task_id = ? AND language_code = ? AND deleted_at IS NULL`. -/
def latestCandidates (db : DB) (taskId : Nat) (languageCode : String) : List Translation :=
  db.translations.filter (fun r =>
    r.taskId == taskId && r.languageCode == languageCode && r.deletedAt.isNone)

/-- `dbService.templateTranslations.findLatestByTaskAndLanguage`: the
candidate rows ordered by `created_at DESC`, `LIMIT 1`. -/
def findLatestByTaskAndLanguage (db : DB) (taskId : Nat) (languageCode : String) :
    Option Translation :=
  (List.insertionSort latestOrder (latestCandidates db taskId languageCode)).head?

/-- Data for `dbService.translationTasks.create`. -/
structure TaskInsert where
  templateId : String
  templateName : String
  templateVersionId : String
  sourceLanguage : String
  targetLanguages : List String
  status : TaskStatus
  totalLanguages : Nat
  completedLanguages : Nat
  failedLanguages : Nat
deriving DecidableEq, Repr

/-- `dbService.translationTasks.create`: insert the given values and return
the new row.  The source performs no validation of the insert data. -/
def createTask (db : DB) (newId : Nat) (data : TaskInsert) (now : Nat) : DB × Task :=
  let task : Task :=
    { id := newId
      templateId := data.templateId
      templateName := data.templateName
      templateVersionId := data.templateVersionId
      sourceLanguage := data.sourceLanguage
      targetLanguages := data.targetLanguages
      status := data.status
      totalLanguages := data.totalLanguages
      completedLanguages := data.completedLanguages
      failedLanguages := data.failedLanguages
      errorMessage := none
      createdAt := now
      updatedAt := now }
  ({ db with tasks := db.tasks ++ [task] }, task)

/-- The coordinator's `create-translation-task` step: build the insert data
from the event payload (totalLanguages = targetLanguages.length, counters 0,
status processing) and call `create`.  No emptiness check is made. -/
def coordinatorCreateStep (db : DB) (newId : Nat)
    (templateId templateName templateVersionId : String)
    (targetLanguages : List String) (now : Nat) : DB × Task :=
  createTask db newId
    { templateId := templateId
      templateName := templateName
      templateVersionId := templateVersionId
      sourceLanguage := "en"
      targetLanguages := targetLanguages
      status := TaskStatus.processing
      totalLanguages := targetLanguages.length
      completedLanguages := 0
      failedLanguages := 0 }
    now

/-- `dbService.translationTasks.updateStatus`: set status (and the error
message when one is provided — drizzle drops `undefined` fields from
`.set`), bump `updatedAt`. -/
def updateTaskStatus (db : DB) (id : Nat) (status : TaskStatus)
    (errorMessage : Option String) (now : Nat) : DB :=
  { db with
    tasks := db.tasks.map (fun t =>
      if t.id = id then
        { t with
          status := status
          errorMessage := (match errorMessage with
            | some e => some e
            | none => t.errorMessage)
          updatedAt := now }
      else t) }

/-- The result record of `requestRetranslate`. -/
structure RetranslateResult where
  newTranslation : Translation
  previousTranslation : Translation
  previousStatus : TrStatus
deriving DecidableEq, Repr

/-- The read phase of `requestRetranslate`: from the current database state,
build the new row that will be inserted (same original content, status
processing, the given reason, zero attempts, version from
`getNextVersion`). -/
def retranslateNewRow (db : DB) (existing : Translation) (reason : String)
    (now newId : Nat) : Translation :=
  { id := newId
    taskId := existing.taskId
    templateId := existing.templateId
    templateVersionId := existing.templateVersionId
    languageCode := existing.languageCode
    originalHtml := existing.originalHtml
    translatedHtml := none
    originalSubject := existing.originalSubject
    translatedSubject := none
    status := TrStatus.processing
    errorMessage := none
    retranslateReason := some reason
    retranslateAttempts := 0
    version := getNextVersion db existing.templateId existing.templateVersionId
      existing.languageCode
    verifiedAt := none
    deletedAt := none
    createdAt := now
    updatedAt := now }

/-- The write phase of `requestRetranslate`: insert the new row, bump
`retranslateAttempts` on the old row, and if the old row's prior status was
completed (resp. failed) decrement the owning task's completedLanguages
(resp. failedLanguages), `GREATEST(x - 1, 0)` being truncated subtraction on
naturals. -/
def retranslateApply (db : DB) (existing newRow : Translation) (now : Nat) : DB :=
  let db1 : DB := { db with translations := db.translations ++ [newRow] }
  let db2 : DB := { db1 with
    translations := db1.translations.map (fun r =>
      if r.id = existing.id then
        { r with
          retranslateAttempts := existing.retranslateAttempts + 1
          updatedAt := now }
      else r) }
  if existing.status = TrStatus.completed then
    { db2 with
      tasks := db2.tasks.map (fun t =>
        if t.id = existing.taskId then
          { t with completedLanguages := t.completedLanguages - 1, updatedAt := now }
        else t) }
  else if existing.status = TrStatus.failed then
    { db2 with
      tasks := db2.tasks.map (fun t =>
        if t.id = existing.taskId then
          { t with failedLanguages := t.failedLanguages - 1, updatedAt := now }
        else t) }
  else db2

/-- `dbService.templateTranslations.requestRetranslate`: read the existing
row (`undefined` when missing or soft-deleted, in which case nothing is
written), then insert the next-version row and apply the old-row and task
updates.  Returns the new row, the old row as read, and its prior status. -/
def requestRetranslate (db : DB) (id : Nat) (reason : String) (now newId : Nat) :
    Option (DB × RetranslateResult) :=
  match findTranslationById db id with
  | none => none
  | some existing =>
    if existing.deletedAt.isSome then none
    else
      let newRow := retranslateNewRow db existing reason now newId
      some (retranslateApply db existing newRow now,
        { newTranslation := newRow
          previousTranslation := existing
          previousStatus := existing.status })

/-- The payload of the `translation/job-completed` event. -/
structure CompletionEvent where
  taskId : Nat
  success : Bool
  error : Option String
  completedLanguages : Nat
  failedLanguages : Nat
  totalLanguages : Nat
deriving DecidableEq, Repr

/-- The worker's `check-completion` step (`translateLanguage`): re-read the
task; if `completedLanguages + failedLanguages` equals the event's
`totalLanguages`, emit the completion event (success iff no failures, error
"<n> languages failed" when some failed); otherwise emit nothing.  The step
performs no writes. -/
def checkCompletion (db : DB) (taskId : Nat) (totalLanguages : Nat) :
    Option CompletionEvent :=
  match findTaskById db taskId with
  | none => none
  | some task =>
    if task.completedLanguages + task.failedLanguages = totalLanguages then
      some
        { taskId := taskId
          success := task.failedLanguages = 0
          error :=
            if task.failedLanguages > 0 then
              some (toString task.failedLanguages ++ " languages failed")
            else none
          completedLanguages := task.completedLanguages
          failedLanguages := task.failedLanguages
          totalLanguages := totalLanguages }
    else none

/-- The coordinator's `wait-for-completion` filter: among the emitted
`translation/job-completed` events, the wait matches the first one whose
`taskId` equals this coordinator's task. -/
def matchSignal (signals : List CompletionEvent) (taskId : Nat) : Option CompletionEvent :=
  signals.find? (fun e => e.taskId == taskId)

/-- The coordinator's `finalize-translation` step: no signal (timeout) →
task failed with the timeout message; signal with success=false → task
failed with the carried error; signal with success=true → task completed.
The boolean reports whether the coordinator returned success. -/
def finalizeTranslation (db : DB) (taskId : Nat) (signal : Option CompletionEvent)
    (now : Nat) : DB × Bool :=
  match signal with
  | none =>
    (updateTaskStatus db taskId TaskStatus.failed
      (some "Translation job timed out after 20 minutes") now, false)
  | some s =>
    if s.success then
      (updateTaskStatus db taskId TaskStatus.completed none now, true)
    else
      (updateTaskStatus db taskId TaskStatus.failed s.error now, false)

/-- `POST /api/translations/retranslate`: validate the reason length (zod
`min(5).max(500)`), 404 when the row is missing, 400 when it is currently
processing or pending, then delegate to `requestRetranslate` (500 when it
returns `undefined`, which happens exactly for soft-deleted rows here); on
success force the task to processing and return 200. -/
def retranslateRoute (db : DB) (translationId : Nat) (reason : String)
    (now newId : Nat) : DB × Nat :=
  if reason.length < 5 || reason.length > 500 then (db, 400)
  else
    match findTranslationById db translationId with
    | none => (db, 404)
    | some existing =>
      if existing.status = TrStatus.processing ∨ existing.status = TrStatus.pending then
        (db, 400)
      else
        match requestRetranslate db translationId reason now newId with
        | none => (db, 500)
        | some (db1, res) =>
          match findTaskById db1 res.newTranslation.taskId with
          | none => (db1, 404)
          | some _task =>
            (updateTaskStatus db1 res.newTranslation.taskId TaskStatus.processing none now,
              200)

/-- Modelled from the spec (for comparison with the code): the "latest"
row of a task and language per the spec's definition — highest `version`,
tie-broken by most recent `updatedAt`, among non-deleted rows. -/
def specVersionOrder (a b : Translation) : Prop :=
  b.version < a.version ∨ (b.version = a.version ∧ b.updatedAt ≤ a.updatedAt)

instance : DecidableRel specVersionOrder := fun a b => by
  unfold specVersionOrder
  infer_instance

/-- Modelled from the spec: the latest row by (version, updatedAt). -/
def specVersionLatest (db : DB) (taskId : Nat) (languageCode : String) :
    Option Translation :=
  (List.insertionSort specVersionOrder (latestCandidates db taskId languageCode)).head?

/-- The distinct language codes among a task's non-deleted rows. -/
def taskLanguages (db : DB) (taskId : Nat) : List String :=
  ((nonDeletedOfTask db taskId).map (fun r => r.languageCode)).dedup

/-- Modelled from the spec: the number of distinct languages whose
version-latest row has the given status. -/
def specStatusCount (db : DB) (taskId : Nat) (s : TrStatus) : Nat :=
  (taskLanguages db taskId).countP (fun L =>
    match specVersionLatest db taskId L with
    | some r => r.status == s
    | none => false)

/-- Boolean test for a completed row. -/
def isCompleted (r : Translation) : Bool :=
  r.status == TrStatus.completed

/-- Boolean test for a failed row. -/
def isFailed (r : Translation) : Bool :=
  r.status == TrStatus.failed

theorem syncLoop_eq_countP (l : List Translation) :
    ∀ seen c f,
      syncLoop l seen (c, f) =
        (c + (dedupeByLanguage l seen).countP isCompleted,
         f + (dedupeByLanguage l seen).countP isFailed) := by
  induction l with
  | nil =>
    intro seen c f
    simp [syncLoop, dedupeByLanguage]
  | cons r rs ih =>
    intro seen c f
    by_cases hmem : r.languageCode ∈ seen
    · simp [syncLoop, dedupeByLanguage, hmem, ih]
    · cases hst : r.status <;>
        simp [syncLoop, dedupeByLanguage, hmem, hst, ih, List.countP_cons,
          isCompleted, isFailed] <;>
        omega

theorem mem_of_mem_dedupeByLanguage {x : Translation} :
    ∀ {l : List Translation} {seen : List String},
      x ∈ dedupeByLanguage l seen → x ∈ l := by
  intro l
  induction l with
  | nil =>
    intro seen h
    simp [dedupeByLanguage] at h
  | cons r rs ih =>
    intro seen h
    by_cases hmem : r.languageCode ∈ seen
    · simp only [dedupeByLanguage, if_pos hmem] at h
      exact List.mem_cons_of_mem r (ih h)
    · simp only [dedupeByLanguage, if_neg hmem] at h
      rcases List.mem_cons.mp h with h | h
      · exact h ▸ List.mem_cons_self r rs
      · exact List.mem_cons_of_mem r (ih h)

theorem lang_notin_seen_of_mem_dedupe {x : Translation} :
    ∀ {l : List Translation} {seen : List String},
      x ∈ dedupeByLanguage l seen → x.languageCode ∉ seen := by
  intro l
  induction l with
  | nil =>
    intro seen h
    simp [dedupeByLanguage] at h
  | cons r rs ih =>
    intro seen h
    by_cases hmem : r.languageCode ∈ seen
    · simp only [dedupeByLanguage, if_pos hmem] at h
      exact ih h
    · simp only [dedupeByLanguage, if_neg hmem] at h
      rcases List.mem_cons.mp h with h | h
      · exact h ▸ hmem
      · intro hc
        exact ih h (List.mem_cons_of_mem _ hc)

theorem nodup_dedupe_langs :
    ∀ (l : List Translation) (seen : List String),
      ((dedupeByLanguage l seen).map (fun r => r.languageCode)).Nodup := by
  intro l
  induction l with
  | nil =>
    intro seen
    simp [dedupeByLanguage]
  | cons r rs ih =>
    intro seen
    by_cases hmem : r.languageCode ∈ seen
    · simpa only [dedupeByLanguage, if_pos hmem] using ih seen
    · simp only [dedupeByLanguage, if_neg hmem, List.map_cons, List.nodup_cons]
      refine ⟨?_, ih _⟩
      intro hc
      rcases List.mem_map.mp hc with ⟨y, hy, hyl⟩
      exact lang_notin_seen_of_mem_dedupe hy (hyl ▸ List.mem_cons_self _ seen)

theorem dedupe_covers {y : Translation} :
    ∀ {l : List Translation} {seen : List String},
      y ∈ l → y.languageCode ∉ seen →
        ∃ x ∈ dedupeByLanguage l seen, x.languageCode = y.languageCode := by
  intro l
  induction l with
  | nil =>
    intro seen hy _
    simp at hy
  | cons r rs ih =>
    intro seen hy hns
    by_cases hmem : r.languageCode ∈ seen
    · simp only [dedupeByLanguage, if_pos hmem]
      rcases List.mem_cons.mp hy with h | h
      · exact absurd (h ▸ hns) (fun hc => hc hmem)
      · exact ih h hns
    · simp only [dedupeByLanguage, if_neg hmem]
      rcases List.mem_cons.mp hy with h | h
      · exact ⟨r, List.mem_cons_self _ _, by rw [h]⟩
      · by_cases hsame : y.languageCode = r.languageCode
        · exact ⟨r, List.mem_cons_self _ _, hsame.symm⟩
        · have hns2 : y.languageCode ∉ r.languageCode :: seen := by
            intro hc
            rcases List.mem_cons.mp hc with hc | hc
            · exact hsame hc
            · exact hns hc
          rcases ih h hns2 with ⟨x, hx, hxl⟩
          exact ⟨x, List.mem_cons_of_mem _ hx, hxl⟩

theorem dedupe_max :
    ∀ {l : List Translation} {seen : List String},
      List.Sorted syncOrder l →
        ∀ {x : Translation}, x ∈ dedupeByLanguage l seen →
          ∀ {y : Translation}, y ∈ l → y.languageCode = x.languageCode →
            syncOrder x y ∨ x = y := by
  intro l
  induction l with
  | nil =>
    intro seen _ x hx
    simp [dedupeByLanguage] at hx
  | cons r rs ih =>
    intro seen hs x hx y hy hlang
    have hpair := List.pairwise_cons.mp hs
    by_cases hmem : r.languageCode ∈ seen
    · simp only [dedupeByLanguage, if_pos hmem] at hx
      rcases List.mem_cons.mp hy with h | h
      · exfalso
        have := lang_notin_seen_of_mem_dedupe hx
        rw [← hlang, h] at this
        exact this hmem
      · exact ih hpair.2 hx h hlang
    · simp only [dedupeByLanguage, if_neg hmem] at hx
      rcases List.mem_cons.mp hx with hx | hx
      · subst hx
        rcases List.mem_cons.mp hy with h | h
        · exact Or.inr h.symm
        · exact Or.inl (hpair.1 y h)
      · rcases List.mem_cons.mp hy with h | h
        · exfalso
          have := lang_notin_seen_of_mem_dedupe hx
          rw [← hlang, h] at this
          exact this (List.mem_cons_self _ _)
        · exact ih hpair.2 hx h hlang

theorem syncOrder_same_lang {x y : Translation} (h : syncOrder x y)
    (e : y.languageCode = x.languageCode) :
    y.createdAt < x.createdAt ∨
      (y.createdAt = x.createdAt ∧ y.updatedAt ≤ x.updatedAt) := by
  rcases h with h | ⟨_, h⟩
  · rw [e] at h
    exact absurd h (lt_irrefl _)
  · exact h

theorem countP_isCompleted_add_isFailed_le (l : List Translation) :
    l.countP isCompleted + l.countP isFailed ≤ l.length := by
  induction l with
  | nil => simp
  | cons r rs ih =>
    cases hst : r.status <;>
      simp [List.countP_cons, isCompleted, isFailed, hst] <;>
      omega

theorem foldl_max_version_init_le (l : List Translation) :
    ∀ a : Nat, a ≤ l.foldl (fun m r => max m r.version) a := by
  induction l with
  | nil => intro a; simp
  | cons r rs ih =>
    intro a
    calc a ≤ max a r.version := Nat.le_max_left _ _
    _ ≤ rs.foldl (fun m r => max m r.version) (max a r.version) := ih _

theorem version_le_foldl_max (l : List Translation) :
    ∀ (a : Nat) (r : Translation), r ∈ l →
      r.version ≤ l.foldl (fun m r => max m r.version) a := by
  induction l with
  | nil => intro a r h; simp at h
  | cons x xs ih =>
    intro a r h
    rcases List.mem_cons.mp h with h | h
    · subst h
      calc r.version ≤ max a r.version := Nat.le_max_right _ _
      _ ≤ xs.foldl (fun m r => max m r.version) (max a r.version) :=
          foldl_max_version_init_le xs _
    · exact ih _ r h

theorem foldl_max_version_cases (l : List Translation) :
    ∀ a : Nat,
      l.foldl (fun m r => max m r.version) a = a ∨
        ∃ r ∈ l, l.foldl (fun m r => max m r.version) a = r.version := by
  induction l with
  | nil => intro a; exact Or.inl rfl
  | cons x xs ih =>
    intro a
    rcases Nat.le_total x.version a with h | h
    · have hmax : max a x.version = a := Nat.max_eq_left h
      rcases ih (max a x.version) with h2 | ⟨r, hr, h2⟩
      · exact Or.inl (by simpa [List.foldl_cons, hmax] using h2)
      · exact Or.inr ⟨r, List.mem_cons_of_mem _ hr, by simpa [List.foldl_cons] using h2⟩
    · have hmax : max a x.version = x.version := Nat.max_eq_right h
      rcases ih (max a x.version) with h2 | ⟨r, hr, h2⟩
      · refine Or.inr ⟨x, List.mem_cons_self _ _, ?_⟩
        simpa [List.foldl_cons, hmax] using h2
      · exact Or.inr ⟨r, List.mem_cons_of_mem _ hr, by simpa [List.foldl_cons] using h2⟩

/-- C10: `getNextVersion` is one more than the maximum version over all rows
matching (templateId, templateVersionId, languageCode) — soft-deleted rows
included, so no existing version (even of a soft-deleted row) is ever
reused — and it is 1 when no row matches. -/
theorem getNextVersion_spec (db : DB) (tid tvid lang : String) :
    (∀ r ∈ db.translations,
        r.templateId = tid → r.templateVersionId = tvid → r.languageCode = lang →
          r.version < getNextVersion db tid tvid lang) ∧
    ((∀ r ∈ db.translations,
        ¬(r.templateId = tid ∧ r.templateVersionId = tvid ∧ r.languageCode = lang)) →
      getNextVersion db tid tvid lang = 1) ∧
    (getNextVersion db tid tvid lang = 1 ∨
      ∃ r ∈ db.translations,
        r.templateId = tid ∧ r.templateVersionId = tvid ∧ r.languageCode = lang ∧
          r.version + 1 = getNextVersion db tid tvid lang) := by
  refine ⟨?_, ?_, ?_⟩
  · intro r hr h1 h2 h3
    have hmem : r ∈ db.translations.filter (fun r =>
        r.templateId == tid && r.templateVersionId == tvid && r.languageCode == lang) :=
      List.mem_filter.mpr ⟨hr, by simp [h1, h2, h3]⟩
    have := version_le_foldl_max _ 0 r hmem
    unfold getNextVersion
    omega
  · intro hnone
    have hfil : db.translations.filter (fun r =>
        r.templateId == tid && r.templateVersionId == tvid && r.languageCode == lang) = [] := by
      apply List.filter_eq_nil_iff.mpr
      intro r hr
      have := hnone r hr
      simp only [Bool.and_eq_true, beq_iff_eq]
      tauto
    unfold getNextVersion
    rw [hfil]
    rfl
  · rcases foldl_max_version_cases (db.translations.filter (fun r =>
        r.templateId == tid && r.templateVersionId == tvid && r.languageCode == lang)) 0
      with h | ⟨r, hr, h⟩
    · left
      unfold getNextVersion
      omega
    · right
      have hmem := List.mem_filter.mp hr
      refine ⟨r, hmem.1, ?_, ?_, ?_, ?_⟩
      · have := hmem.2; simp only [Bool.and_eq_true, beq_iff_eq] at this; exact this.1.1
      · have := hmem.2; simp only [Bool.and_eq_true, beq_iff_eq] at this; exact this.1.2
      · have := hmem.2; simp only [Bool.and_eq_true, beq_iff_eq] at this; exact this.2
      · unfold getNextVersion
        omega

/-- Closed instance of `getNextVersion_spec`. -/
theorem getNextVersion_spec_witness :
    let db : DB :=
      { tasks := []
        translations :=
          [{ id := 1, taskId := 1, templateId := "t", templateVersionId := "v",
             languageCode := "de", originalHtml := "h", translatedHtml := none,
             originalSubject := some "s", translatedSubject := none,
             status := TrStatus.completed, errorMessage := none,
             retranslateReason := none, retranslateAttempts := 0, version := 3,
             verifiedAt := none, deletedAt := some 7, createdAt := 1, updatedAt := 1 }] }
    (∀ r ∈ db.translations,
        r.templateId = "t" → r.templateVersionId = "v" → r.languageCode = "de" →
          r.version < getNextVersion db "t" "v" "de") ∧
      getNextVersion db "t" "v" "de" = 4 :=
  ⟨(getNextVersion_spec _ "t" "v" "de").1, by decide⟩

/-- C3: the worker's `check-completion` step emits a completion event iff
the re-read task's `completedLanguages + failedLanguages` equals the job's
`totalLanguages`; the event carries the taskId, `success` iff no language
failed, the "<n> languages failed" error exactly when some failed, and the
final counts.  The step writes nothing. -/
theorem checkCompletion_spec (db : DB) (taskId total : Nat) (task : Task)
    (h : findTaskById db taskId = some task) :
    ((checkCompletion db taskId total).isSome ↔
      task.completedLanguages + task.failedLanguages = total) ∧
    (∀ e, checkCompletion db taskId total = some e →
      e.taskId = taskId ∧
      (e.success = true ↔ task.failedLanguages = 0) ∧
      (0 < task.failedLanguages →
        e.error = some (toString task.failedLanguages ++ " languages failed")) ∧
      (task.failedLanguages = 0 → e.error = none) ∧
      e.completedLanguages = task.completedLanguages ∧
      e.failedLanguages = task.failedLanguages ∧
      e.totalLanguages = total) := by
  have hred : checkCompletion db taskId total =
      (if task.completedLanguages + task.failedLanguages = total then
        some
          { taskId := taskId
            success := task.failedLanguages = 0
            error :=
              if task.failedLanguages > 0 then
                some (toString task.failedLanguages ++ " languages failed")
              else none
            completedLanguages := task.completedLanguages
            failedLanguages := task.failedLanguages
            totalLanguages := total }
      else none) := by
    unfold checkCompletion
    rw [h]
  rw [hred]
  by_cases hc : task.completedLanguages + task.failedLanguages = total
  · rw [if_pos hc]
    refine ⟨by simpa using hc, ?_⟩
    intro e he
    have he2 := (Option.some.injEq _ _).mp he
    subst he2
    refine ⟨rfl, by simp, ?_, ?_, rfl, rfl, rfl⟩
    · intro hf
      simp [Nat.pos_iff_ne_zero.mp hf, hf]
    · intro hf
      simp [hf]
  · rw [if_neg hc]
    exact ⟨by simpa using hc, by intro e he; cases he⟩

/-- Closed instance of `checkCompletion_spec`. -/
theorem checkCompletion_spec_witness :
    let t : Task :=
      { id := 1, templateId := "t", templateName := "n", templateVersionId := "v",
        sourceLanguage := "en", targetLanguages := ["de", "fr", "es"],
        status := TaskStatus.processing, totalLanguages := 3,
        completedLanguages := 2, failedLanguages := 1, errorMessage := none,
        createdAt := 0, updatedAt := 0 }
    let db : DB := { tasks := [t], translations := [] }
    ((checkCompletion db 1 3).isSome ↔ t.completedLanguages + t.failedLanguages = 3) ∧
      checkCompletion db 1 3 =
        some { taskId := 1, success := false, error := some "1 languages failed",
               completedLanguages := 2, failedLanguages := 1, totalLanguages := 3 } :=
  ⟨(checkCompletion_spec _ 1 3 _ (by decide)).1, by decide⟩

/-- C4: the coordinator's wait is keyed by taskId (a matched signal always
carries this taskId), and the `finalize-translation` step maps the wait's
outcome onto the task row: no signal (timeout) → failed with the timeout
message; signal with success=false → failed with the carried error; signal
with success=true → completed. -/
theorem finalizeTranslation_spec (db : DB) (taskId : Nat)
    (signal : Option CompletionEvent) (now : Nat) (t : Task)
    (h1 : t ∈ db.tasks) (h2 : t.id = taskId) :
    (∀ signals e, matchSignal signals taskId = some e → e.taskId = taskId) ∧
    (signal = none →
      { t with
        status := TaskStatus.failed
        errorMessage := some "Translation job timed out after 20 minutes"
        updatedAt := now } ∈ (finalizeTranslation db taskId signal now).1.tasks ∧
      (finalizeTranslation db taskId signal now).2 = false) ∧
    (∀ s, signal = some s → s.success = true →
      { t with status := TaskStatus.completed, updatedAt := now }
          ∈ (finalizeTranslation db taskId signal now).1.tasks ∧
      (finalizeTranslation db taskId signal now).2 = true) ∧
    (∀ s, signal = some s → s.success = false →
      { t with
        status := TaskStatus.failed
        errorMessage := (match s.error with | some e => some e | none => t.errorMessage)
        updatedAt := now } ∈ (finalizeTranslation db taskId signal now).1.tasks ∧
      (finalizeTranslation db taskId signal now).2 = false) := by
  refine ⟨?_, ?_, ?_, ?_⟩
  · intro signals e he
    have := List.find?_some he
    simpa using this
  · intro hs
    subst hs
    constructor
    · refine List.mem_map.mpr ⟨t, h1, ?_⟩
      rw [if_pos h2]
    · rfl
  · intro s hs hsucc
    subst hs
    have hred : finalizeTranslation db taskId (some s) now =
        (updateTaskStatus db taskId TaskStatus.completed none now, true) := by
      unfold finalizeTranslation
      simp [hsucc]
    rw [hred]
    refine ⟨List.mem_map.mpr ⟨t, h1, ?_⟩, rfl⟩
    rw [if_pos h2]
  · intro s hs hsucc
    subst hs
    have hred : finalizeTranslation db taskId (some s) now =
        (updateTaskStatus db taskId TaskStatus.failed s.error now, false) := by
      unfold finalizeTranslation
      simp [hsucc]
    rw [hred]
    refine ⟨List.mem_map.mpr ⟨t, h1, ?_⟩, rfl⟩
    rw [if_pos h2]

/-- Closed instance of `finalizeTranslation_spec` (timeout case). -/
theorem finalizeTranslation_spec_witness :
    let t : Task :=
      { id := 1, templateId := "t", templateName := "n", templateVersionId := "v",
        sourceLanguage := "en", targetLanguages := ["de"],
        status := TaskStatus.processing, totalLanguages := 1,
        completedLanguages := 0, failedLanguages := 0, errorMessage := none,
        createdAt := 0, updatedAt := 0 }
    let db : DB := { tasks := [t], translations := [] }
    { t with
      status := TaskStatus.failed
      errorMessage := some "Translation job timed out after 20 minutes"
      updatedAt := 5 } ∈ (finalizeTranslation db 1 none 5).1.tasks ∧
      (finalizeTranslation db 1 none 5).2 = false :=
  (finalizeTranslation_spec _ 1 none 5 _ (by decide) (by decide)).2.1 rfl

/-- C6 (amended): neither the store's `create` nor the coordinator's
`create-translation-task` step validates `targetLanguages`; the task is
always created with `totalLanguages = targetLanguages.length`, zero
counters and status processing — including for the empty list. -/
theorem coordinatorCreateStep_no_validation (db : DB) (newId : Nat)
    (tid tname tvid : String) (langs : List String) (now : Nat) :
    (coordinatorCreateStep db newId tid tname tvid langs now).2.totalLanguages =
        langs.length ∧
    (coordinatorCreateStep db newId tid tname tvid langs now).2.completedLanguages = 0 ∧
    (coordinatorCreateStep db newId tid tname tvid langs now).2.failedLanguages = 0 ∧
    (coordinatorCreateStep db newId tid tname tvid langs now).2.status =
        TaskStatus.processing ∧
    (coordinatorCreateStep db newId tid tname tvid langs now).2
        ∈ (coordinatorCreateStep db newId tid tname tvid langs now).1.tasks := by
  refine ⟨rfl, rfl, rfl, rfl, ?_⟩
  unfold coordinatorCreateStep createTask
  simp

/-- C6 counterexample: with an empty `targetLanguages` list the coordinator
creates (and the store accepts) a task with `totalLanguages = 0`; no
validation failure occurs. -/
theorem coordinatorCreateStep_empty_counterexample :
    let db : DB := { tasks := [], translations := [] }
    (coordinatorCreateStep db 1 "tmpl" "name" "ver" [] 0).2.totalLanguages = 0 ∧
      (coordinatorCreateStep db 1 "tmpl" "name" "ver" [] 0).1.tasks =
        [(coordinatorCreateStep db 1 "tmpl" "name" "ver" [] 0).2] := by
  exact ⟨rfl, rfl⟩

theorem retranslateApply_translations (db : DB) (existing newRow : Translation)
    (now : Nat) :
    (retranslateApply db existing newRow now).translations =
      (db.translations ++ [newRow]).map (fun r =>
        if r.id = existing.id then
          { r with
            retranslateAttempts := existing.retranslateAttempts + 1
            updatedAt := now }
        else r) := by
  unfold retranslateApply
  split
  · rfl
  · split
    · rfl
    · rfl

theorem retranslateApply_tasks_completed (db : DB) (existing newRow : Translation)
    (now : Nat) (h : existing.status = TrStatus.completed) :
    (retranslateApply db existing newRow now).tasks =
      db.tasks.map (fun t =>
        if t.id = existing.taskId then
          { t with completedLanguages := t.completedLanguages - 1, updatedAt := now }
        else t) := by
  unfold retranslateApply
  rw [if_pos h]

theorem retranslateApply_tasks_failed (db : DB) (existing newRow : Translation)
    (now : Nat) (h1 : existing.status ≠ TrStatus.completed)
    (h2 : existing.status = TrStatus.failed) :
    (retranslateApply db existing newRow now).tasks =
      db.tasks.map (fun t =>
        if t.id = existing.taskId then
          { t with failedLanguages := t.failedLanguages - 1, updatedAt := now }
        else t) := by
  unfold retranslateApply
  rw [if_neg h1, if_pos h2]

theorem retranslateApply_tasks_other (db : DB) (existing newRow : Translation)
    (now : Nat) (h1 : existing.status ≠ TrStatus.completed)
    (h2 : existing.status ≠ TrStatus.failed) :
    (retranslateApply db existing newRow now).tasks = db.tasks := by
  unfold retranslateApply
  rw [if_neg h1, if_neg h2]

theorem requestRetranslate_some_elim {db : DB} {id : Nat} {reason : String}
    {now newId : Nat} {db2 : DB} {res : RetranslateResult}
    (h : requestRetranslate db id reason now newId = some (db2, res)) :
    ∃ existing,
      findTranslationById db id = some existing ∧
      existing.deletedAt = none ∧
      res = { newTranslation := retranslateNewRow db existing reason now newId
              previousTranslation := existing
              previousStatus := existing.status } ∧
      db2 = retranslateApply db existing (retranslateNewRow db existing reason now newId)
        now := by
  cases hfind : findTranslationById db id with
  | none =>
    unfold requestRetranslate at h
    rw [hfind] at h
    cases h
  | some existing =>
    unfold requestRetranslate at h
    rw [hfind] at h
    by_cases hdel : existing.deletedAt.isSome
    · simp [hdel] at h
    · simp only [hdel, Bool.false_eq_true, if_false, if_neg, Option.some.injEq,
        Prod.mk.injEq] at h
      exact ⟨existing, rfl, Option.not_isSome_iff_eq_none.mp hdel, h.2.symm, h.1.symm⟩

theorem requestRetranslate_none_iff (db : DB) (id : Nat) (reason : String)
    (now newId : Nat) :
    requestRetranslate db id reason now newId = none ↔
      findTranslationById db id = none ∨
        ∃ r, findTranslationById db id = some r ∧ r.deletedAt ≠ none := by
  cases hfind : findTranslationById db id with
  | none =>
    unfold requestRetranslate
    rw [hfind]
    simp
  | some existing =>
    unfold requestRetranslate
    rw [hfind]
    by_cases hdel : existing.deletedAt.isSome
    · simp only [hdel, if_true, if_pos, true_iff]
      exact Or.inr ⟨existing, rfl, Option.isSome_iff_ne_none.mp hdel⟩
    · simp only [hdel, Bool.false_eq_true, if_false, if_neg]
      constructor
      · intro hc
        cases hc
      · intro hc
        rcases hc with hc | ⟨r, hr, hrd⟩
        · cases hc
        · have hre : existing = r := Option.some.inj hr
          exact absurd (hre ▸ Option.not_isSome_iff_eq_none.mp hdel) hrd

/-- C2: `requestRetranslate` returns nothing (and writes nothing) exactly
when the row is missing or soft-deleted; otherwise it inserts a new row
carrying the old row's original content with status processing, the given
reason, zero attempts and version `getNextVersion`, bumps
`retranslateAttempts` on the old row, decrements the owning task's
completed (resp. failed) counter floored at zero when the prior status was
completed (resp. failed), and returns the old row, the new row and the
prior status. -/
theorem requestRetranslate_spec (db : DB) (id : Nat) (reason : String)
    (now newId : Nat) (hfresh : ∀ r ∈ db.translations, r.id ≠ newId) :
    (requestRetranslate db id reason now newId = none ↔
      findTranslationById db id = none ∨
        ∃ r, findTranslationById db id = some r ∧ r.deletedAt ≠ none) ∧
    (∀ db2 res, requestRetranslate db id reason now newId = some (db2, res) →
      findTranslationById db id = some res.previousTranslation ∧
      res.previousTranslation.deletedAt = none ∧
      res.previousStatus = res.previousTranslation.status ∧
      res.newTranslation.taskId = res.previousTranslation.taskId ∧
      res.newTranslation.languageCode = res.previousTranslation.languageCode ∧
      res.newTranslation.originalHtml = res.previousTranslation.originalHtml ∧
      res.newTranslation.originalSubject = res.previousTranslation.originalSubject ∧
      res.newTranslation.status = TrStatus.processing ∧
      res.newTranslation.retranslateReason = some reason ∧
      res.newTranslation.retranslateAttempts = 0 ∧
      res.newTranslation.version =
        getNextVersion db res.previousTranslation.templateId
          res.previousTranslation.templateVersionId
          res.previousTranslation.languageCode ∧
      res.newTranslation ∈ db2.translations ∧
      { res.previousTranslation with
          retranslateAttempts := res.previousTranslation.retranslateAttempts + 1
          updatedAt := now } ∈ db2.translations ∧
      (∀ t ∈ db.tasks, t.id = res.previousTranslation.taskId →
        (res.previousStatus = TrStatus.completed →
          { t with completedLanguages := t.completedLanguages - 1, updatedAt := now }
            ∈ db2.tasks) ∧
        (res.previousStatus = TrStatus.failed →
          { t with failedLanguages := t.failedLanguages - 1, updatedAt := now }
            ∈ db2.tasks) ∧
        (res.previousStatus ≠ TrStatus.completed →
          res.previousStatus ≠ TrStatus.failed → db2.tasks = db.tasks))) := by
  refine ⟨requestRetranslate_none_iff db id reason now newId, ?_⟩
  intro db2 res h
  obtain ⟨existing, hfind, hdel, hres, hdb2⟩ := requestRetranslate_some_elim h
  have hprev : res.previousTranslation = existing := by rw [hres]
  have hpstat : res.previousStatus = existing.status := by rw [hres]
  have hnew : res.newTranslation = retranslateNewRow db existing reason now newId := by
    rw [hres]
  have hexid : existing.id = id := by
    have := List.find?_some hfind
    simpa using this
  have hexmem : existing ∈ db.translations := List.mem_of_find?_eq_some hfind
  have hnewid : ¬((retranslateNewRow db existing reason now newId).id = existing.id) := by
    intro hc
    exact hfresh existing hexmem (by simpa [retranslateNewRow] using hc.symm)
  subst hdb2
  rw [hprev, hpstat, hnew]
  refine ⟨hfind, hdel, rfl, rfl, rfl, rfl, rfl, rfl, rfl, rfl, rfl, ?_, ?_, ?_⟩
  · rw [retranslateApply_translations]
    refine List.mem_map.mpr ⟨retranslateNewRow db existing reason now newId, ?_, ?_⟩
    · simp
    · rw [if_neg hnewid]
  · rw [retranslateApply_translations]
    refine List.mem_map.mpr ⟨existing, ?_, ?_⟩
    · exact List.mem_append_left _ hexmem
    · rw [if_pos rfl]
  · intro t ht htid
    refine ⟨?_, ?_, ?_⟩
    · intro hst
      rw [retranslateApply_tasks_completed _ _ _ _ hst]
      exact List.mem_map.mpr ⟨t, ht, by rw [if_pos htid]⟩
    · intro hst
      have hne : existing.status ≠ TrStatus.completed := by
        rw [hst]
        intro hc
        cases hc
      rw [retranslateApply_tasks_failed _ _ _ _ hne hst]
      exact List.mem_map.mpr ⟨t, ht, by rw [if_pos htid]⟩
    · intro h1 h2
      rw [retranslateApply_tasks_other _ _ _ _ h1 h2]

/-- C8: on a successful `requestRetranslate`, the translation table becomes
the old table with only `retranslateAttempts` and `updatedAt` rewritten on
the target row, plus the single appended new-version row; every old row
keeps its status, translated content, error message and version. -/
theorem requestRetranslate_frame (db : DB) (id : Nat) (reason : String)
    (now newId : Nat) (db2 : DB) (res : RetranslateResult)
    (h : requestRetranslate db id reason now newId = some (db2, res))
    (hfresh : ∀ r ∈ db.translations, r.id ≠ newId) :
    db2.translations =
      db.translations.map (fun r =>
        if r.id = id then
          { r with
            retranslateAttempts := res.previousTranslation.retranslateAttempts + 1
            updatedAt := now }
        else r) ++ [res.newTranslation] ∧
    ∀ r ∈ db.translations,
      ∃ s ∈ db2.translations,
        s.id = r.id ∧ s.taskId = r.taskId ∧ s.status = r.status ∧
        s.originalHtml = r.originalHtml ∧ s.originalSubject = r.originalSubject ∧
        s.translatedHtml = r.translatedHtml ∧
        s.translatedSubject = r.translatedSubject ∧
        s.errorMessage = r.errorMessage ∧ s.version = r.version ∧
        s.retranslateReason = r.retranslateReason ∧ s.deletedAt = r.deletedAt ∧
        (r.id = id →
          s.retranslateAttempts = res.previousTranslation.retranslateAttempts + 1 ∧
          s.updatedAt = now) ∧
        (r.id ≠ id → s = r) := by
  obtain ⟨existing, hfind, hdel, hres, hdb2⟩ := requestRetranslate_some_elim h
  have hexid : existing.id = id := by
    have := List.find?_some hfind
    simpa using this
  have hexmem : existing ∈ db.translations := List.mem_of_find?_eq_some hfind
  have hmapeq : db2.translations =
      db.translations.map (fun r =>
        if r.id = id then
          { r with
            retranslateAttempts := existing.retranslateAttempts + 1
            updatedAt := now }
        else r) ++ [retranslateNewRow db existing reason now newId] := by
    rw [hdb2, retranslateApply_translations, List.map_append, hexid]
    congr 1
    have : (retranslateNewRow db existing reason now newId).id = newId := rfl
    simp only [List.map_cons, List.map_nil, this]
    rw [if_neg]
    intro hc
    exact hfresh existing hexmem (hexid.trans hc.symm)
  constructor
  · rw [hmapeq, hres]
  · intro r hr
    refine ⟨if r.id = id then
        { r with
          retranslateAttempts := res.previousTranslation.retranslateAttempts + 1
          updatedAt := now }
      else r, ?_, ?_⟩
    · rw [hmapeq, hres]
      refine List.mem_append_left _ (List.mem_map.mpr ⟨r, hr, rfl⟩)
    · by_cases hid : r.id = id
      · rw [if_pos hid]
        exact ⟨rfl, rfl, rfl, rfl, rfl, rfl, rfl, rfl, rfl, rfl, rfl,
          fun _ => ⟨rfl, rfl⟩, fun hc => absurd hid hc⟩
      · rw [if_neg hid]
        exact ⟨rfl, rfl, rfl, rfl, rfl, rfl, rfl, rfl, rfl, rfl, rfl,
          fun hc => absurd hc hid, fun _ => rfl⟩

/-- A completed translation row used in concrete instances. -/
def trW : Translation :=
  { id := 1, taskId := 1, templateId := "t", templateVersionId := "v",
    languageCode := "de", originalHtml := "h", translatedHtml := some "th",
    originalSubject := some "s", translatedSubject := some "ts",
    status := TrStatus.completed, errorMessage := none,
    retranslateReason := none, retranslateAttempts := 0, version := 1,
    verifiedAt := none, deletedAt := none, createdAt := 1, updatedAt := 1 }

/-- A finished one-language task used in concrete instances. -/
def taskW : Task :=
  { id := 1, templateId := "t", templateName := "n", templateVersionId := "v",
    sourceLanguage := "en", targetLanguages := ["de"],
    status := TaskStatus.completed, totalLanguages := 1,
    completedLanguages := 1, failedLanguages := 0, errorMessage := none,
    createdAt := 0, updatedAt := 1 }

/-- One finished task with one completed translation row. -/
def dbRetr : DB := { tasks := [taskW], translations := [trW] }

/-- The database state after retranslating `trW` in `dbRetr`. -/
def dbRetr2 : DB :=
  { tasks := [{ taskW with completedLanguages := 0, updatedAt := 10 }]
    translations :=
      [{ trW with retranslateAttempts := 1, updatedAt := 10 },
       retranslateNewRow dbRetr trW "tone too formal" 10 2] }

/-- The result record of that retranslation. -/
def resRetr : RetranslateResult :=
  { newTranslation := retranslateNewRow dbRetr trW "tone too formal" 10 2
    previousTranslation := trW
    previousStatus := TrStatus.completed }

/-- Closed instance of `requestRetranslate_spec`. -/
theorem requestRetranslate_spec_witness :
    (∀ r ∈ dbRetr.translations, r.id ≠ 2) ∧
    (requestRetranslate dbRetr 1 "tone too formal" 10 2 = none ↔
      findTranslationById dbRetr 1 = none ∨
        ∃ r, findTranslationById dbRetr 1 = some r ∧ r.deletedAt ≠ none) :=
  ⟨by decide, (requestRetranslate_spec dbRetr 1 "tone too formal" 10 2 (by decide)).1⟩

/-- Closed instance of `requestRetranslate_frame`. -/
theorem requestRetranslate_frame_witness :
    requestRetranslate dbRetr 1 "tone too formal" 10 2 = some (dbRetr2, resRetr) ∧
    dbRetr2.translations =
      dbRetr.translations.map (fun r =>
        if r.id = 1 then
          { r with
            retranslateAttempts := resRetr.previousTranslation.retranslateAttempts + 1
            updatedAt := 10 }
        else r) ++ [resRetr.newTranslation] :=
  ⟨by decide,
    (requestRetranslate_frame dbRetr 1 "tone too formal" 10 2 dbRetr2 resRetr
      (by decide) (by decide)).1⟩

/-- C5 (amended): `findLatestByTaskAndLanguage` returns none exactly when no
non-deleted row matches the task and language, and otherwise returns a
matching non-deleted row whose `createdAt` is maximal among the candidates
(it orders by creation time only, not by version). -/
theorem findLatestByTaskAndLanguage_spec (db : DB) (taskId : Nat) (lang : String) :
    ((findLatestByTaskAndLanguage db taskId lang).isNone ↔
      latestCandidates db taskId lang = []) ∧
    (∀ r, findLatestByTaskAndLanguage db taskId lang = some r →
      r ∈ latestCandidates db taskId lang ∧
      r.taskId = taskId ∧ r.languageCode = lang ∧ r.deletedAt = none ∧
      ∀ y ∈ latestCandidates db taskId lang, y.createdAt ≤ r.createdAt) := by
  have hperm := List.perm_insertionSort latestOrder (latestCandidates db taskId lang)
  have hsort := List.sorted_insertionSort latestOrder (latestCandidates db taskId lang)
  constructor
  · unfold findLatestByTaskAndLanguage
    cases hs : List.insertionSort latestOrder (latestCandidates db taskId lang) with
    | nil =>
      simp only [List.head?_nil, Option.isNone_none, true_iff]
      rw [hs] at hperm
      exact (hperm.symm.eq_nil)
    | cons a l =>
      simp only [List.head?_cons, Option.isNone_some, Bool.false_eq_true, false_iff]
      intro hc
      rw [hs, hc] at hperm
      exact absurd hperm.eq_nil (by simp)
  · intro r hr
    unfold findLatestByTaskAndLanguage at hr
    cases hs : List.insertionSort latestOrder (latestCandidates db taskId lang) with
    | nil =>
      rw [hs] at hr
      cases hr
    | cons a l =>
      rw [hs] at hr
      have ha : a = r := by simpa using hr
      subst ha
      have hmem : a ∈ latestCandidates db taskId lang := by
        have h2 : a ∈ List.insertionSort latestOrder (latestCandidates db taskId lang) := by
          rw [hs]
          exact List.mem_cons_self _ _
        exact (List.mem_insertionSort _).mp h2
      have hprops := (List.mem_filter.mp hmem).2
      simp only [Bool.and_eq_true, beq_iff_eq, Option.isNone_iff_eq_none] at hprops
      refine ⟨hmem, hprops.1.1, hprops.1.2, hprops.2, ?_⟩
      intro y hy
      have hy2 : y ∈ List.insertionSort latestOrder (latestCandidates db taskId lang) :=
        (List.mem_insertionSort _).mpr hy
      rw [hs] at hy2
      rcases List.mem_cons.mp hy2 with h | h
      · rw [h]
      · rw [hs] at hsort
        exact (List.pairwise_cons.mp hsort).1 y h

/-- The higher-version but older-created row of the two-version database. -/
def trV2 : Translation :=
  { id := 1, taskId := 1, templateId := "t", templateVersionId := "v",
    languageCode := "de", originalHtml := "h", translatedHtml := none,
    originalSubject := some "s", translatedSubject := none,
    status := TrStatus.failed, errorMessage := some "boom",
    retranslateReason := none, retranslateAttempts := 0, version := 2,
    verifiedAt := none, deletedAt := none, createdAt := 5, updatedAt := 5 }

/-- The lower-version but more recently created row of the two-version
database. -/
def trV1 : Translation :=
  { id := 2, taskId := 1, templateId := "t", templateVersionId := "v",
    languageCode := "de", originalHtml := "h", translatedHtml := some "x",
    originalSubject := some "s", translatedSubject := some "y",
    status := TrStatus.completed, errorMessage := none,
    retranslateReason := none, retranslateAttempts := 0, version := 1,
    verifiedAt := none, deletedAt := none, createdAt := 9, updatedAt := 9 }

/-- The owning task of the two-version database. -/
def taskV : Task :=
  { id := 1, templateId := "t", templateName := "n", templateVersionId := "v",
    sourceLanguage := "en", targetLanguages := ["de"],
    status := TaskStatus.failed, totalLanguages := 1,
    completedLanguages := 0, failedLanguages := 1, errorMessage := none,
    createdAt := 0, updatedAt := 5 }

/-- A task whose single language has a version-2 `failed` row created
earlier than a version-1 `completed` row: version order and creation order
disagree. -/
def dbTwoVersions : DB := { tasks := [taskV], translations := [trV2, trV1] }

/-- Closed instance of `findLatestByTaskAndLanguage_spec`. -/
theorem findLatestByTaskAndLanguage_spec_witness :
    findLatestByTaskAndLanguage dbTwoVersions 1 "de" = some trV1 ∧
    (trV1 ∈ latestCandidates dbTwoVersions 1 "de" ∧
      trV1.taskId = 1 ∧ trV1.languageCode = "de" ∧ trV1.deletedAt = none ∧
      ∀ y ∈ latestCandidates dbTwoVersions 1 "de", y.createdAt ≤ trV1.createdAt) :=
  ⟨by decide,
    (findLatestByTaskAndLanguage_spec dbTwoVersions 1 "de").2 trV1 (by decide)⟩

/-- C5 counterexample: in `dbTwoVersions`, `findLatestByTaskAndLanguage`
returns the version-1 row (created most recently) even though a non-deleted
version-2 row exists — it does not return the highest-version row the claim
describes. -/
theorem findLatestByTaskAndLanguage_version_counterexample :
    (findLatestByTaskAndLanguage dbTwoVersions 1 "de").map (fun r => r.version)
        = some 1 ∧
    (specVersionLatest dbTwoVersions 1 "de").map (fun r => r.version) = some 2 := by
  decide

/-- C1 (amended): `syncCounts` writes to the task counters the number of
distinct language codes among its non-deleted rows whose selected row — the
row with maximal `createdAt`, tie-broken by `updatedAt` (not maximal
`version`) — is completed resp. failed: the selection `sel` below holds
exactly one such row per distinct language.  The two counters sum to at
most the number of selected rows, hence to at most `totalLanguages`
whenever the rows' languages are drawn without repetition from the task's
target languages. -/
theorem syncCounts_spec (db : DB) (taskId now : Nat) (t : Task)
    (h1 : t ∈ db.tasks) (h2 : t.id = taskId) :
    ∃ t2 ∈ (syncCounts db taskId now).tasks,
      t2.id = taskId ∧
      ∃ sel : List Translation,
        (∀ x ∈ sel, x ∈ nonDeletedOfTask db taskId) ∧
        (sel.map (fun r => r.languageCode)).Nodup ∧
        (∀ y ∈ nonDeletedOfTask db taskId,
          ∃ x ∈ sel, x.languageCode = y.languageCode) ∧
        (∀ x ∈ sel, ∀ y ∈ nonDeletedOfTask db taskId,
          y.languageCode = x.languageCode →
            y.createdAt < x.createdAt ∨
              (y.createdAt = x.createdAt ∧ y.updatedAt ≤ x.updatedAt)) ∧
        t2.completedLanguages = sel.countP isCompleted ∧
        t2.failedLanguages = sel.countP isFailed ∧
        t2.completedLanguages + t2.failedLanguages ≤ sel.length ∧
        ((∀ y ∈ nonDeletedOfTask db taskId, y.languageCode ∈ t.targetLanguages) →
          t.targetLanguages.Nodup →
          t2.completedLanguages + t2.failedLanguages ≤ t.targetLanguages.length) := by
  have hperm := List.perm_insertionSort syncOrder (nonDeletedOfTask db taskId)
  have hsort := List.sorted_insertionSort syncOrder (nonDeletedOfTask db taskId)
  have hcounts :
      syncLoop (List.insertionSort syncOrder (nonDeletedOfTask db taskId)) [] (0, 0) =
        ((dedupeByLanguage
            (List.insertionSort syncOrder (nonDeletedOfTask db taskId)) []).countP
              isCompleted,
         (dedupeByLanguage
            (List.insertionSort syncOrder (nonDeletedOfTask db taskId)) []).countP
              isFailed) := by
    have := syncLoop_eq_countP
      (List.insertionSort syncOrder (nonDeletedOfTask db taskId)) [] 0 0
    simpa using this
  refine ⟨{ t with
      completedLanguages :=
        (syncLoop (List.insertionSort syncOrder (nonDeletedOfTask db taskId)) []
          (0, 0)).1
      failedLanguages :=
        (syncLoop (List.insertionSort syncOrder (nonDeletedOfTask db taskId)) []
          (0, 0)).2
      updatedAt := now }, ?_, h2, ?_⟩
  · simp only [syncCounts]
    exact List.mem_map.mpr ⟨t, h1, by rw [if_pos h2]⟩
  · refine ⟨dedupeByLanguage
      (List.insertionSort syncOrder (nonDeletedOfTask db taskId)) [], ?_, ?_, ?_, ?_,
      ?_, ?_, ?_, ?_⟩
    · intro x hx
      exact (List.mem_insertionSort _).mp (mem_of_mem_dedupeByLanguage hx)
    · exact nodup_dedupe_langs _ _
    · intro y hy
      exact dedupe_covers ((List.mem_insertionSort _).mpr hy) (List.not_mem_nil _)
    · intro x hx y hy hlang
      have hy2 : y ∈ List.insertionSort syncOrder (nonDeletedOfTask db taskId) :=
        (List.mem_insertionSort _).mpr hy
      rcases dedupe_max hsort hx hy2 hlang with h | h
      · exact syncOrder_same_lang h hlang
      · subst h
        exact Or.inr ⟨rfl, le_refl _⟩
    · rw [hcounts]
    · rw [hcounts]
    · rw [hcounts]
      exact countP_isCompleted_add_isFailed_le _
    · intro hsub hnodup
      rw [hcounts]
      have hle := countP_isCompleted_add_isFailed_le
        (dedupeByLanguage (List.insertionSort syncOrder (nonDeletedOfTask db taskId)) [])
      refine le_trans hle ?_
      have hlen : (dedupeByLanguage
          (List.insertionSort syncOrder (nonDeletedOfTask db taskId)) []).length =
          ((dedupeByLanguage
            (List.insertionSort syncOrder (nonDeletedOfTask db taskId)) []).map
              (fun r => r.languageCode)).length := by
        rw [List.length_map]
      rw [hlen]
      refine List.Subperm.length_le ?_
      refine List.subperm_of_subset (nodup_dedupe_langs _ _) ?_
      intro a ha
      rcases List.mem_map.mp ha with ⟨x, hx, hxe⟩
      have hxrows : x ∈ nonDeletedOfTask db taskId :=
        (List.mem_insertionSort _).mp (mem_of_mem_dedupeByLanguage hx)
      exact hxe ▸ hsub x hxrows

/-- Closed instance of `syncCounts_spec`. -/
theorem syncCounts_spec_witness :
    (taskV ∈ dbTwoVersions.tasks ∧ taskV.id = 1) ∧
    ∃ t2 ∈ (syncCounts dbTwoVersions 1 10).tasks, t2.id = 1 :=
  ⟨⟨by decide, rfl⟩, by
    obtain ⟨t2, hmem, hid, _⟩ := syncCounts_spec dbTwoVersions 1 10 taskV (by decide) rfl
    exact ⟨t2, hmem, hid⟩⟩

/-- C1 counterexample: in `dbTwoVersions` the only language's
highest-version row is `failed` (version 2) while its most recently created
row is `completed` (version 1); `syncCounts` counts by creation recency and
writes completed=1, failed=0, whereas counting by the version-latest row as
the claim states would give completed=0, failed=1. -/
theorem syncCounts_version_counterexample :
    (syncCounts dbTwoVersions 1 10).tasks.map
        (fun t => (t.id, t.completedLanguages, t.failedLanguages)) = [(1, 1, 0)] ∧
    specStatusCount dbTwoVersions 1 TrStatus.completed = 0 ∧
    specStatusCount dbTwoVersions 1 TrStatus.failed = 1 := by
  have h2 : ¬ syncOrder trV2 trV1 := by
    rintro (h | ⟨-, h | ⟨he, -⟩⟩)
    · exact lt_irrefl _ h
    · exact absurd h (by decide)
    · exact absurd he (by decide)
  have h3 : List.insertionSort syncOrder (nonDeletedOfTask dbTwoVersions 1) =
      [trV1, trV2] := by
    show List.orderedInsert syncOrder trV2 [trV1] = [trV1, trV2]
    simp [List.orderedInsert, h2]
  have h4 : (syncCounts dbTwoVersions 1 10).tasks.map
      (fun t => (t.id, t.completedLanguages, t.failedLanguages)) = [(1, 1, 0)] := by
    simp only [syncCounts, h3]
    decide
  exact ⟨h4, by decide, by decide⟩

/-- C9 (amended): with a well-formed reason, the retranslate route returns
404 and leaves the database unchanged when the row is missing, 400 and no
change when the row is currently processing or pending, and 500 and no
change when the row is soft-deleted but not in flight (`requestRetranslate`
returns nothing for it). -/
theorem retranslateRoute_errors (db : DB) (tid : Nat) (reason : String)
    (now newId : Nat) (hlen : 5 ≤ reason.length ∧ reason.length ≤ 500) :
    (findTranslationById db tid = none →
      retranslateRoute db tid reason now newId = (db, 404)) ∧
    (∀ r, findTranslationById db tid = some r →
      (r.status = TrStatus.processing ∨ r.status = TrStatus.pending) →
      retranslateRoute db tid reason now newId = (db, 400)) ∧
    (∀ r, findTranslationById db tid = some r →
      ¬(r.status = TrStatus.processing ∨ r.status = TrStatus.pending) →
      r.deletedAt ≠ none →
      retranslateRoute db tid reason now newId = (db, 500)) := by
  have hguard : (decide (reason.length < 5) || decide (reason.length > 500)) = false := by
    simp only [Bool.or_eq_false_iff, decide_eq_false_iff_not]
    omega
  refine ⟨?_, ?_, ?_⟩
  · intro hfind
    simp [retranslateRoute, hguard, hfind]
  · intro r hfind hst
    simp [retranslateRoute, hguard, hfind, hst]
  · intro r hfind hst hdel
    have hdel2 : r.deletedAt.isSome = true := Option.isSome_iff_ne_none.mpr hdel
    simp [retranslateRoute, hguard, hfind, hst, requestRetranslate, hdel2]

/-- Closed instance of `retranslateRoute_errors` (missing row). -/
theorem retranslateRoute_errors_witness :
    (5 ≤ ("please fix this" : String).length ∧
      ("please fix this" : String).length ≤ 500) ∧
    retranslateRoute { tasks := [], translations := [] } 1 "please fix this" 0 9 =
      ({ tasks := [], translations := [] }, 404) :=
  ⟨by decide,
    (retranslateRoute_errors { tasks := [], translations := [] } 1 "please fix this" 0 9
      (by decide)).1 (by decide)⟩

/-- A soft-deleted completed translation row. -/
def trDeleted : Translation :=
  { id := 1, taskId := 1, templateId := "t", templateVersionId := "v",
    languageCode := "de", originalHtml := "h", translatedHtml := some "th",
    originalSubject := some "s", translatedSubject := some "ts",
    status := TrStatus.completed, errorMessage := none,
    retranslateReason := none, retranslateAttempts := 0, version := 1,
    verifiedAt := none, deletedAt := some 3, createdAt := 1, updatedAt := 3 }

/-- A database whose only translation row is soft-deleted. -/
def dbSoftDeleted : DB := { tasks := [taskW], translations := [trDeleted] }

/-- C9 counterexample: a request that targets a soft-deleted (completed)
row is answered with 500 ("Unable to request retranslation"), not with the
404 the claim states: the route's existence check does not look at
`deletedAt`, and `requestRetranslate`'s `undefined` is mapped to 500. -/
theorem retranslateRoute_softDeleted_counterexample :
    (findTranslationById dbSoftDeleted 1).map (fun r => (r.deletedAt, r.status)) =
        some (some 3, TrStatus.completed) ∧
    retranslateRoute dbSoftDeleted 1 "please fix this" 10 9 = (dbSoftDeleted, 500) := by
  decide

/-- The sole existing row of the race scenario (version 1). -/
def trRace : Translation :=
  { id := 1, taskId := 1, templateId := "t", templateVersionId := "v",
    languageCode := "de", originalHtml := "h", translatedHtml := some "x",
    originalSubject := some "s", translatedSubject := some "y",
    status := TrStatus.completed, errorMessage := none,
    retranslateReason := none, retranslateAttempts := 0, version := 1,
    verifiedAt := none, deletedAt := none, createdAt := 1, updatedAt := 1 }

/-- The race scenario's initial state. -/
def dbRace : DB := { tasks := [taskW], translations := [trRace] }

/-- First concurrent request: its read phase runs against `dbRace`. -/
def raceRow1 : Translation := retranslateNewRow dbRace trRace "reason one" 10 11

/-- Second concurrent request: its read phase also runs against `dbRace`,
before either write phase. -/
def raceRow2 : Translation := retranslateNewRow dbRace trRace "reason two" 10 12

/-- The state after both write phases run (in either order — shown here
with request 1 writing first). -/
def dbRaceFinal : DB :=
  retranslateApply (retranslateApply dbRace trRace raceRow1 10) trRace raceRow2 10

/-- C7: the read-then-insert in `requestRetranslate` admits the documented
race: when two concurrent retranslations for the same
(templateId, templateVersionId, languageCode) both execute their read phase
(`findById` + `getNextVersion`) before either insert, both compute version
2 = N + 1 and both version-2 rows end up stored — the claim's
"exactly one inserts version N+1" is violated by this interleaving. -/
theorem getNextVersion_race_code_bug :
    raceRow1.version = 2 ∧ raceRow2.version = 2 ∧
    (dbRaceFinal.translations.filter (fun r =>
        r.templateId == "t" && r.templateVersionId == "v" &&
        r.languageCode == "de" && r.version == 2)).length = 2 := by
  decide

end SendgridTranslation
